import Mathlib

/-!
Verification development for the documentation-crawler pipeline
(`ScraperService` / `CacheService` / extractor utilities).

The JavaScript/TypeScript sources are shallowly embedded:
* parsed HTML is a generic tree of typed nodes (`MNode`, with child
  forests `MForest`), matching the cheerio document model the extractors
  and the compiler traverse;
* the per-page resolution step (`fetchAndProcessPage`) is an abstract
  oracle `String → Option ProcessedPage`, since the real function performs
  network and cache I/O and absorbs every per-page failure into `null`;
* machine timestamps are `Int` milliseconds (the code compares
  `Date.getTime()` differences against the 24h TTL);
* `Buffer.from(url).toString("base64")` works on the UTF-8 byte sequence of
  the URL, so the cache key transform is embedded over `List Nat` bytes;
* `new URL(...)` is an abstract parser/resolver pair returning `none` where
  the constructor throws.
-/

mutual
/-- Generic markup node: tag name, attributes and children — or text. -/
inductive MNode where
  | text (s : String)
  | element (tag : String) (attrs : List (String × String)) (children : MForest)
deriving Repr

/-- A sequence of sibling markup nodes (a document fragment). -/
inductive MForest where
  | nil
  | cons (head : MNode) (tail : MForest)
deriving Repr
end

/-- Build a forest from a list of nodes (for writing documents). -/
def MForest.ofList : List MNode → MForest
  | [] => .nil
  | n :: rest => .cons n (MForest.ofList rest)

/-- Whether `needle` occurs as a contiguous sublist of `hay`. -/
def containsSublist (needle : List Char) : List Char → Bool
  | [] => needle.isEmpty
  | c :: rest => needle.isPrefixOf (c :: rest) || containsSublist needle rest

/-- JS `String.prototype.includes`: substring test. -/
def strIncludes (s sub : String) : Bool := containsSublist sub.toList s.toList

/-- JS `String.prototype.startsWith`. -/
def jsStartsWith (s pre : String) : Bool := pre.toList.isPrefixOf s.toList

/-- JS `String.prototype.toLowerCase` (ASCII range, as used by the sources). -/
def lowerStr (s : String) : String := String.mk (s.toList.map Char.toLower)

/-- JS `String.prototype.trim` (drop leading and trailing whitespace). -/
def jsTrim (s : String) : String :=
  String.mk (((s.toList.dropWhile Char.isWhitespace).reverse.dropWhile Char.isWhitespace).reverse)

/-- Fuel-driven worker for `jsSplit`; the fuel starts at the string length,
which one-character-per-step consumption never exhausts. -/
def jsSplitGo (sep : List Char) : Nat → List Char → List (List Char)
  | 0, l => [l]
  | _ + 1, [] => [[]]
  | fuel + 1, c :: rest =>
    if sep.isPrefixOf (c :: rest) then
      [] :: jsSplitGo sep fuel (List.drop (sep.length - 1) rest)
    else
      match jsSplitGo sep fuel rest with
      | [] => [[c]]
      | t :: ts => (c :: t) :: ts

/-- JS `String.prototype.split` with a nonempty string separator. -/
def jsSplit (s sep : String) : List String :=
  (jsSplitGo sep.toList s.toList.length s.toList).map String.mk

/-- Attribute lookup, `$elem.attr(name)`: `none` models `undefined`. -/
def getAttr (attrs : List (String × String)) (name : String) : Option String :=
  (attrs.find? (fun a => a.1 = name)).map (fun a => a.2)

/-- Concatenated text of a forest, in document order (cheerio `.text()`). -/
def textOfForest : MForest → String
  | .nil => ""
  | .cons (.text s) rest => s ++ textOfForest rest
  | .cons (.element _ _ cs) rest => textOfForest cs ++ textOfForest rest

/-- Text of one node. -/
def textOfNode : MNode → String
  | .text s => s
  | .element _ _ cs => textOfForest cs

/-! ## Data model (src/types): processed page records -/

/-- `CodeExample` from src/types. -/
structure CodeExample where
  code : String
  language : String
  description : String
deriving Repr, DecidableEq

/-- `APISignature` from src/types. -/
structure APISignature where
  name : String
  signature : String
  description : String
deriving Repr, DecidableEq

/-- `ProcessedPage` from src/types.  `content` is the page's main HTML,
kept as its parse forest; `timestamp` is the record's write time in epoch
milliseconds (the code stores an ISO string and compares `getTime()`). -/
structure ProcessedPage where
  url : String
  title : String
  content : MForest
  links : List String
  codeExamples : List CodeExample
  apiSignatures : List APISignature
  timestamp : Int

/-! ## CacheService

`getPage`/`setPage` address the filesystem at `base64(url) + ".json"`; the
filesystem is embedded as a map from key to stored entry, where a stored
entry is either a well-formed record or a corrupt one (`JSON.parse`
failure). -/

/-- The base64 alphabet used by `Buffer.toString("base64")`. -/
def b64Alphabet : List Char :=
  "ABCDEFGHIJKLMNOPQRSTUVWXYZabcdefghijklmnopqrstuvwxyz0123456789+/".toList

/-- Index into the base64 alphabet. -/
def b64Char (n : Nat) : Char := b64Alphabet.getD n 'A'

/-- Position of a character in the base64 alphabet (decoder helper). -/
def b64Dec (c : Char) : Nat := b64Alphabet.indexOf c

/-- Standard base64 of a byte sequence, with `=` padding — the encoding
produced by `Buffer.from(url).toString("base64")`. -/
def base64Encode : List Nat → List Char
  | [] => []
  | [a] => [b64Char (a / 4), b64Char (a % 4 * 16), '=', '=']
  | [a, b] => [b64Char (a / 4), b64Char (a % 4 * 16 + b / 16), b64Char (b % 16 * 4), '=']
  | a :: b :: c :: rest =>
    b64Char (a / 4) :: b64Char (a % 4 * 16 + b / 16) ::
      b64Char (b % 16 * 4 + c / 64) :: b64Char (c % 64) :: base64Encode rest

/-- Base64 decoder (used only to establish injectivity of the key
transform). -/
def base64Decode : List Char → List Nat
  | c1 :: c2 :: c3 :: c4 :: rest =>
    if c3 = '=' then [b64Dec c1 * 4 + b64Dec c2 / 16]
    else if c4 = '=' then
      [b64Dec c1 * 4 + b64Dec c2 / 16, b64Dec c2 % 16 * 16 + b64Dec c3 / 4]
    else
      [b64Dec c1 * 4 + b64Dec c2 / 16, b64Dec c2 % 16 * 16 + b64Dec c3 / 4,
        b64Dec c3 % 4 * 64 + b64Dec c4] ++ base64Decode rest
  | _ => []

/-- Cache key of a URL (given as its UTF-8 byte sequence):
`Buffer.from(url).toString("base64")` plus the `".json"` suffix. -/
def cacheKey (urlBytes : List Nat) : List Char :=
  base64Encode urlBytes ++ ".json".toList

/-- A stored cache file: a parsed record, or one `JSON.parse` rejects. -/
inductive CacheEntry where
  | valid : ProcessedPage → CacheEntry
  | corrupt : CacheEntry

/-- The cache directory contents: relative path → stored entry (`none` =
no file).  The program only ever creates the cache directory itself
(`mkdirSync` at module load) and never a subdirectory, so a key containing
`/` names a path inside a subdirectory that never exists. -/
def CacheStore := List Char → Option CacheEntry

/-- 24 hours in milliseconds (`24 * 60 * 60 * 1000`). -/
def ttlMs : Int := 24 * 60 * 60 * 1000

namespace CacheService

/-- `CacheService.getPage`: `existsSync` then read at
`path.join(DOCS_CACHE_DIR, key)`; absent file, corrupt record, or
`now - timestamp >= TTL` all yield `null`.  When the key contains `/` the
path lies in a subdirectory that never exists, so `existsSync` is false and
the lookup misses. -/
def getPage (store : CacheStore) (now : Int) (urlBytes : List Nat) : Option ProcessedPage :=
  if '/' ∈ cacheKey urlBytes then none
  else
    match store (cacheKey urlBytes) with
    | some (.valid page) =>
      if now - page.timestamp < ttlMs then some page else none
    | some .corrupt => none
    | none => none

/-- `CacheService.setPage`: `writeFileSync` at
`path.join(DOCS_CACHE_DIR, key)`.  When the key contains `/` the target's
parent directory does not exist, the write throws `ENOENT`, and the catch
logs and swallows the error, leaving the directory unchanged; otherwise the
file at the key is overwritten. -/
def setPage (store : CacheStore) (urlBytes : List Nat) (page : ProcessedPage) : CacheStore :=
  if '/' ∈ cacheKey urlBytes then store
  else fun k => if k = cacheKey urlBytes then some (.valid page) else store k

end CacheService

/-! ## Extractor utilities (src/utils/extractors) -/

/-- The observable parts of a WHATWG `URL` object the extractor reads. -/
structure UrlObj where
  href : String
  hostname : String
  pathname : String
deriving Repr, DecidableEq

/-- The fixed relevance keyword list `apiKeywords`. -/
def apiKeywords : List String :=
  ["api", "reference", "doc", "guide", "tutorial", "example", "usage",
    "getting-started", "introduction", "started"]

/-- All `a[href]` elements in document order, as (href, visible text) pairs;
`href`-less and empty-`href` anchors are skipped (`if (!href) return`). -/
def anchorHrefTexts : MForest → List (String × String)
  | .nil => []
  | .cons (.text _) rest => anchorHrefTexts rest
  | .cons (.element tag attrs ch) rest =>
    (if tag = "a" then
      match getAttr attrs "href" with
      | some h => if h = "" then [] else [(h, textOfForest ch)]
      | none => []
     else []) ++ anchorHrefTexts ch ++ anchorHrefTexts rest

/-- One iteration of the anchor loop: `some absoluteUrl` when the link
passes every filter (same hostname, relevance keywords, not a same-page
fragment link), `none` when it is dropped (including URL-parse throws,
which the loop catches and ignores). -/
def linkCandidate (parseUrl : String → Option UrlObj)
    (resolveUrl : String → String → Option UrlObj)
    (baseUrlObj : UrlObj) (baseUrl libraryNameLower : String)
    (ht : String × String) : Option String :=
  match resolveUrl ht.1 baseUrl with
  | none => none
  | some abs =>
    match parseUrl abs.href with
    | none => none
    | some urlObj =>
      if urlObj.hostname ≠ baseUrlObj.hostname then none
      else
        let linkText := lowerStr ht.2
        let linkPath := lowerStr urlObj.pathname
        let isRelevant :=
          apiKeywords.any (fun kw => strIncludes linkPath kw || strIncludes linkText kw)
            || strIncludes linkPath libraryNameLower
        if isRelevant then
          if (jsSplit abs.href "#").headD "" ≠ (jsSplit baseUrl "#").headD ""
          then some abs.href else none
        else none

/-- Insertion-ordered deduplication, `Array.from(new Set(...))` over the
sequence of `links.add(...)` calls. -/
def dedupKeepFirst (l : List String) : List String :=
  l.foldl (fun acc x => if x ∈ acc then acc else acc ++ [x]) []

/-- `extractRelevantLinks(html, baseUrl, libraryName)`; the forest is the
parsed `html`.  Returns `none` when `new URL(baseUrl)` throws (which
propagates out of the function). -/
def extractRelevantLinks (parseUrl : String → Option UrlObj)
    (resolveUrl : String → String → Option UrlObj)
    (body : MForest) (baseUrl libraryName : String) : Option (List String) :=
  match parseUrl baseUrl with
  | none => none
  | some baseUrlObj =>
    some (dedupKeepFirst ((anchorHrefTexts body).filterMap
      (linkCandidate parseUrl resolveUrl baseUrlObj baseUrl (lowerStr libraryName))))

/-! ### Code example extraction -/

/-- `\w` of a JavaScript regex (no unicode flag). -/
def wordChar (c : Char) : Bool := c.isAlphanum || c = '_'

/-- Case-insensitive literal match of `kw` at the head of `l`, returning the
remainder on success. -/
def matchKeywordAt : List Char → List Char → Option (List Char)
  | [], rest => some rest
  | _ :: _, [] => none
  | k :: ks, c :: cs => if k.toLower = c.toLower then matchKeywordAt ks cs else none

/-- Try one alternative of `/(language|lang|syntax)-(\w+)/i` at the current
position: keyword, then `-`, then a nonempty run of word characters
(the captured group 2). -/
def tryLangKeyword (kw : String) (l : List Char) : Option (List Char) :=
  match matchKeywordAt kw.toList l with
  | some ('-' :: rest) =>
    let tok := rest.takeWhile wordChar
    if tok.isEmpty then none else some tok
  | _ => none

/-- All three alternatives, in the regex's order, at one position. -/
def langTokenAt (l : List Char) : Option (List Char) :=
  match tryLangKeyword "language" l with
  | some t => some t
  | none =>
    match tryLangKeyword "lang" l with
    | some t => some t
    | none => tryLangKeyword "syntax" l

/-- `className.match(/(language|lang|syntax)-(\w+)/i)`: group 2 of the
leftmost match, scanning positions left to right. -/
def scanLangToken : List Char → Option (List Char)
  | [] => none
  | c :: cs =>
    match langTokenAt (c :: cs) with
    | some t => some t
    | none => scanLangToken cs

/-- JS `a || b` for the attribute fallback chain (empty string is falsy,
`none` models `undefined`). -/
def orFalsy (v : Option String) (fallback : String) : String :=
  match v with
  | some s => if s = "" then fallback else s
  | none => fallback

/-- The language inference of `extractCodeExamples`, before the final
`toLowerCase()`: first the class-name regex; `else if` the `js`/`ts`
substring heuristics; and the attribute chain only when all of those left
`language` empty (`if (!language)`). -/
def inferLanguageRaw (className : String) (attrs : List (String × String)) : String :=
  let language :=
    match scanLangToken className.toList with
    | some tok => String.mk tok
    | none =>
      if strIncludes className "js" || strIncludes className "javascript" then "javascript"
      else if strIncludes className "ts" || strIncludes className "typescript" then "typescript"
      else ""
  if language = "" then
    orFalsy (getAttr attrs "data-language")
      (orFalsy (getAttr attrs "data-lang")
        (orFalsy (getAttr attrs "language")
          (orFalsy (getAttr attrs "lang") "")))
  else language

/-- Modelled from the spec's wording for the language-inference rules: the
class-name `language-<token>`/`lang-<token>` convention (rule written from
the spec, for comparison with the source's order). -/
def specLangRuleClassConvention (className : String) : String :=
  match scanLangToken className.toList with
  | some tok => String.mk tok
  | none => ""

/-- Modelled from the spec's wording: the explicit language/data-language
attribute rule. -/
def specLangRuleAttrs (attrs : List (String × String)) : String :=
  orFalsy (getAttr attrs "data-language")
    (orFalsy (getAttr attrs "data-lang")
      (orFalsy (getAttr attrs "language")
        (orFalsy (getAttr attrs "lang") "")))

/-- Modelled from the spec's wording: the substring heuristics on the class
name (containing "js" or "ts"). -/
def specLangRuleSubstring (className : String) : String :=
  if strIncludes className "js" || strIncludes className "javascript" then "javascript"
  else if strIncludes className "ts" || strIncludes className "typescript" then "typescript"
  else ""

/-- "A later rule is consulted only when every earlier rule produced
nothing": first nonempty result of an ordered rule list. -/
def firstNonEmptyRule : List String → String
  | [] => ""
  | r :: rest => if r = "" then firstNonEmptyRule rest else r

/-- Split a character list at every whitespace character. -/
def splitOnWsChars : List Char → List (List Char)
  | [] => [[]]
  | c :: rest =>
    if c.isWhitespace then [] :: splitOnWsChars rest
    else
      match splitOnWsChars rest with
      | [] => [[c]]
      | t :: ts => (c :: t) :: ts

/-- Whitespace tokens of a `class` attribute (CSS class-selector matching). -/
def classTokens (cls : String) : List String := (splitOnWsChars cls.toList).map String.mk

/-- Class-selector membership test. -/
def hasClassToken (cls tok : String) : Bool := (classTokens cls).contains tok

/-- Whether an element matches the candidate selector
`pre code, pre, code, .highlight, .code-example, [class*="code"],
[class*="example"]`. -/
def isCodeCandidate (tag className : String) (hasPreAncestor : Bool) : Bool :=
  (tag = "code" && hasPreAncestor) || tag = "pre" || tag = "code"
    || hasClassToken className "highlight" || hasClassToken className "code-example"
    || strIncludes className "code" || strIncludes className "example"

/-- Heading tags `h1`–`h6`. -/
def isHeadingTag (t : String) : Bool :=
  t = "h1" || t = "h2" || t = "h3" || t = "h4" || t = "h5" || t = "h6"

/-- Tag of a node (text nodes have none). -/
def tagOf : MNode → String
  | .element t _ _ => t
  | .text _ => ""

/-- Whether a node is a heading element. -/
def isHeadingNode (n : MNode) : Bool := isHeadingTag (tagOf n)

/-- Whether a node matches `h1, h2, h3, h4, h5, h6, p` (the `.prev` filter). -/
def matchesHeadingOrP (n : MNode) : Bool := isHeadingTag (tagOf n) || tagOf n = "p"

/-- Headings among a forest, in document order (`.find("h1, ..., h6")`). -/
def headingsIn : MForest → List MNode
  | .nil => []
  | .cons (.text _) rest => headingsIn rest
  | .cons (.element tag attrs ch) rest =>
    (if isHeadingTag tag then [MNode.element tag attrs ch] else [])
      ++ headingsIn ch ++ headingsIn rest

/-- Description search for a code block: the immediately preceding element
sibling (`.prev()` skips text nodes) if it is a heading or paragraph, else
the first heading found inside the enclosing parent, whose child forest is
`allSiblings`. -/
def codeDescription (prevElem : Option MNode) (allSiblings : MForest) : String :=
  match prevElem with
  | some p =>
    if matchesHeadingOrP p then jsTrim (textOfNode p)
    else
      match (headingsIn allSiblings).head? with
      | some h => jsTrim (textOfNode h)
      | none => ""
  | none =>
    match (headingsIn allSiblings).head? with
    | some h => jsTrim (textOfNode h)
    | none => ""

/-- The body of the `.each` callback for one candidate element: `none` when
the block's text is empty or shorter than 10 characters. -/
def buildCodeExample (prevElem : Option MNode) (allSiblings : MForest)
    (attrs : List (String × String)) (children : MForest) : Option CodeExample :=
  let code := jsTrim (textOfForest children)
  if code = "" || code.length < 10 then none
  else
    let className := (getAttr attrs "class").getD ""
    let language := inferLanguageRaw className attrs
    some { code := code, language := lowerStr language,
           description := codeDescription prevElem allSiblings }

/-- Document-order walk behind `extractCodeExamples`: `prevElem` is the
element sibling most recently passed at the current level, `allSiblings` the
full child forest of the enclosing parent, and the two flags whether a
`pre` / `code` ancestor encloses the current level (for the `pre code`
selector and the nested-block skip). -/
def codeFromSiblings (hasPreAnc hasCodeAnc : Bool) (allSiblings : MForest) :
    Option MNode → MForest → List CodeExample
  | _, .nil => []
  | prevElem, .cons (.text _) rest =>
    codeFromSiblings hasPreAnc hasCodeAnc allSiblings prevElem rest
  | prevElem, .cons (.element tag attrs children) rest =>
    (if isCodeCandidate tag ((getAttr attrs "class").getD "") hasPreAnc
        && !((hasPreAnc || hasCodeAnc) && !(tag = "pre") && !(tag = "code")) then
      (buildCodeExample prevElem allSiblings attrs children).toList
     else [])
      ++ codeFromSiblings (hasPreAnc || tag = "pre") (hasCodeAnc || tag = "code")
          children none children
      ++ codeFromSiblings hasPreAnc hasCodeAnc allSiblings
          (some (MNode.element tag attrs children)) rest

/-- `extractCodeExamples(html)`; the forest is the parsed `html` body. -/
def extractCodeExamples (body : MForest) : List CodeExample :=
  codeFromSiblings false false body none body

/-! ### API signature extraction -/

/-- `text.replace(/\s+/g, " ")`, one character at a time; the flag records
whether the previous character was whitespace (already emitted as the single
space of its run). -/
def collapseWsAux : Bool → List Char → List Char
  | _, [] => []
  | prevWs, c :: cs =>
    if c.isWhitespace then
      if prevWs then collapseWsAux true cs else ' ' :: collapseWsAux true cs
    else c :: collapseWsAux false cs

/-- `cleanText`: collapse whitespace runs, then trim. -/
def cleanText (s : String) : String := jsTrim (String.mk (collapseWsAux false s.toList))

/-- Whether an element matches `pre, code, .signature, .function-signature`. -/
def isSigCandidate : MNode → Bool
  | .element tag attrs _ =>
    tag = "pre" || tag = "code"
      || hasClassToken ((getAttr attrs "class").getD "") "signature"
      || hasClassToken ((getAttr attrs "class").getD "") "function-signature"
  | .text _ => false

/-- Whether an element is a paragraph. -/
def isPNode : MNode → Bool
  | .element tag _ _ => tag = "p"
  | .text _ => false

/-- `nextAll(sel).first()` plus the acceptance check
`prevAll("h1, ..., h6").first().is($heading)`: the first matching following
sibling, provided no other heading stands between the original heading and
it. -/
def firstAcceptedAfter (p : MNode → Bool) : MForest → Option MNode
  | .nil => none
  | .cons n rest =>
    if p n then some n
    else if isHeadingNode n then none
    else firstAcceptedAfter p rest

/-- The signature text found for a heading: the first accepted
`pre, code, .signature, .function-signature` following sibling, cleaned
(`""` when none was accepted). -/
def sigTextAfter (following : MForest) : String :=
  match firstAcceptedAfter isSigCandidate following with
  | some n => cleanText (textOfNode n)
  | none => ""

/-- The description text found for a heading: the first accepted `p`
following sibling, cleaned (`""` when none was accepted). -/
def descTextAfter (following : MForest) : String :=
  match firstAcceptedAfter isPNode following with
  | some n => cleanText (textOfNode n)
  | none => ""

/-- The `.each` body of `extractAPISignatures` for one heading: skips long
and boilerplate headings, then collects the signature block and description
paragraph among the following siblings; an entry is emitted only when one of
the two is nonempty. -/
def entryForHeading (children following : MForest) : List APISignature :=
  let headingText := cleanText (textOfForest children)
  if headingText.length > 100
      || strIncludes (lowerStr headingText) "introduction"
      || strIncludes (lowerStr headingText) "getting started" then []
  else
    let signature := sigTextAfter following
    let description := descTextAfter following
    if !(signature = "") || !(description = "") then
      [{ name := headingText, signature := signature, description := description }]
    else []

/-- Document-order walk behind `extractAPISignatures`. -/
def apiFromSiblings : MForest → List APISignature
  | .nil => []
  | .cons (.text _) rest => apiFromSiblings rest
  | .cons (.element tag _ children) rest =>
    (if isHeadingTag tag then entryForHeading children rest else [])
      ++ apiFromSiblings children ++ apiFromSiblings rest

/-- `extractAPISignatures(html, libraryName)`; the second argument is unused
by the source as well. -/
def extractAPISignatures (body : MForest) (_libraryName : String) : List APISignature :=
  apiFromSiblings body

/-! ## ScraperService.crawlDocumentation

The while loop over the FIFO frontier, with `fetchAndProcessPage` as the
oracle.  Alongside the source's `urlsToVisit` / `visitedUrls` /
`processedPages` the embedding carries a ghost trace `dequeued` recording
every URL popped from the frontier (it does not influence the control
flow).  Only membership and size of `visitedUrls` are ever observed, so the
`Set` is carried as the list of its elements, most recent first. -/

/-- One crawl: returns (processedPages, visitedUrls, dequeued trace). -/
def crawlLoop (oracle : String → Option ProcessedPage) (maxPages : Nat) :
    List String → List String → List ProcessedPage → List String →
    List ProcessedPage × List String × List String
  | [], visited, results, dequeued => (results, visited, dequeued)
  | currentUrl :: rest, visited, results, dequeued =>
    if _h : results.length < maxPages then
      if currentUrl ∈ visited then
        crawlLoop oracle maxPages rest visited results (dequeued ++ [currentUrl])
      else
        match oracle currentUrl with
        | none =>
          crawlLoop oracle maxPages rest (currentUrl :: visited) results
            (dequeued ++ [currentUrl])
        | some page =>
          crawlLoop oracle maxPages
            (page.links.foldl
              (fun q link =>
                if link ∈ (currentUrl :: visited) ∨ link ∈ q then q else q ++ [link])
              rest)
            (currentUrl :: visited) (results ++ [page]) (dequeued ++ [currentUrl])
    else (results, visited, dequeued)
termination_by frontier _ results _ => (maxPages - results.length, frontier.length)

/-- `crawlDocumentation(startUrl, libraryName, maxPages, skipCache)`:
the processed pages of the loop started on frontier `[startUrl]`. -/
def crawlDocumentation (oracle : String → Option ProcessedPage)
    (startUrl : String) (maxPages : Nat) : List ProcessedPage :=
  (crawlLoop oracle maxPages [startUrl] [] [] []).1

/-! ## ScraperService.fetchLibraryDocumentation and compileDocumentation -/

/-- `extractLibraryName(url)` from src/utils/packageRepository.  `none`
embeds the `TypeError` thrown when a URL contains `github.com` but not
`github.com/` (indexing `[1]` of a one-element split).  All other branches
guard the split with a matching `includes` test and cannot fail. -/
def extractLibraryName (url : String) : Option String :=
  if strIncludes url "npmjs.com/package/" then
    some (((jsSplit ((jsSplit url "/package/").getD 1 "") "/").headD ""))
  else if strIncludes url "pypi.org/project/" then
    some (((jsSplit ((jsSplit url "/project/").getD 1 "") "/").headD ""))
  else if strIncludes url "nuget.org/packages/" then
    some (((jsSplit ((jsSplit url "/packages/").getD 1 "") "/").headD ""))
  else if strIncludes url "rubygems.org/gems/" then
    some (((jsSplit ((jsSplit url "/gems/").getD 1 "") "/").headD ""))
  else if strIncludes url "packagist.org/packages/" then
    some (((jsSplit ((jsSplit url "/packages/").getD 1 "") "/").headD ""))
  else if strIncludes url "crates.io/crates/" then
    some (((jsSplit ((jsSplit url "/crates/").getD 1 "") "/").headD ""))
  else if strIncludes url "pkg.go.dev/" then
    some (((jsSplit ((jsSplit url "pkg.go.dev/").getD 1 "") "/").headD ""))
  else if strIncludes url "cocoapods.org/pods/" then
    some (((jsSplit ((jsSplit url "/pods/").getD 1 "") "/").headD ""))
  else if strIncludes url "mvnrepository.com/artifact/" then
    some (((jsSplit ((jsSplit url "/artifact/").getD 1 "") "/").headD ""))
  else if strIncludes url "github.com" then
    match (jsSplit url "github.com/").get? 1 with
    | none => none
    | some tail =>
      let parts := jsSplit tail "/"
      if parts.length ≥ 2 then some (parts.getD 1 "") else some url
  else some url

/-- The seed rewrite at the top of `fetchLibraryDocumentation`: an input not
starting with `"http"` is treated as an npm package name. -/
def seedUrlOf (url : String) : String :=
  if jsStartsWith url "http" then url else "https://www.npmjs.com/package/" ++ url

/-- `[^a-z0-9]` of the slug regex. -/
def isSlugChar (c : Char) : Bool := ('a' ≤ c && c ≤ 'z') || ('0' ≤ c && c ≤ '9')

/-- `replace(/[^a-z0-9]+/g, "-")` on an already lowercased string; the flag
records whether the current run of excluded characters already emitted its
`-`. -/
def slugAux : Bool → List Char → List Char
  | _, [] => []
  | inRun, c :: cs =>
    if isSlugChar c then c :: slugAux false cs
    else if inRun then slugAux true cs
    else '-' :: slugAux true cs

/-- The table-of-contents anchor: `title.toLowerCase().replace(/[^a-z0-9]+/g, "-")`. -/
def slugify (t : String) : String := String.mk (slugAux false (t.toList.map Char.toLower))

/-- `"#".repeat(level + 1) ++ " "` etc.: a run of `n` hashes. -/
def hashes (n : Nat) : String := String.mk (List.replicate n '#')

/-- `parseInt(heading.name.replace("h", ""))` for the tags reaching it. -/
def headingLevel (t : String) : Nat := ((t.drop 1).toNat?).getD 0

/-- Heading occurrences of a content forest in document order, each with its
own tag, child forest, and following siblings (the scope of `.next()`). -/
def headingSections : MForest → List (String × MForest × MForest)
  | .nil => []
  | .cons (.text _) rest => headingSections rest
  | .cons (.element tag _ children) rest =>
    (if isHeadingTag tag then [(tag, children, rest)] else [])
      ++ headingSections children ++ headingSections rest

/-- The `.next()` walk from a heading: following element siblings up to the
next heading, keeping those matching `p, ul, ol, pre, code, table`. -/
def collectRun : MForest → List MNode
  | .nil => []
  | .cons (.text _) rest => collectRun rest
  | .cons (.element tag attrs ch) rest =>
    if isHeadingTag tag then []
    else
      (if tag = "p" ∨ tag = "ul" ∨ tag = "ol" ∨ tag = "pre" ∨ tag = "code" ∨ tag = "table"
       then [MNode.element tag attrs ch] else [])
        ++ collectRun rest

/-- One heading's contribution to a page body: the heading line, then the
text of the collected content run (serialized with `"\n\n"` after each node
and converted back to text), followed by a final `"\n\n"` when the run was
nonempty. -/
def compileSection (sec : String × MForest × MForest) : String :=
  let headingText := jsTrim (textOfForest sec.2.1)
  hashes (headingLevel sec.1 + 1) ++ " " ++ headingText ++ "\n\n" ++
    (let picked := collectRun sec.2.2
     if picked.isEmpty then ""
     else String.join (picked.map (fun n => textOfNode n ++ "\n\n")) ++ "\n\n")

/-- The code-example block of one page. -/
def compileCodeExamples (examples : List CodeExample) : String :=
  if examples.isEmpty then ""
  else
    "### Code Examples\n\n" ++
      String.join (examples.map (fun ex =>
        (if ex.description ≠ "" then "#### " ++ ex.description ++ "\n\n" else "") ++
          "```" ++ ex.language ++ "\n" ++ ex.code ++ "\n```\n\n"))

/-- The API-reference block of one page. -/
def compileApiSignatures (apis : List APISignature) : String :=
  if apis.isEmpty then ""
  else
    "### API Reference\n\n" ++
      String.join (apis.map (fun api =>
        "#### " ++ api.name ++ "\n\n" ++
          (if api.signature ≠ "" then "```\n" ++ api.signature ++ "\n```\n\n" else "") ++
          (if api.description ≠ "" then api.description ++ "\n\n" else "")))

/-- One page's section of the compiled document. -/
def compilePage (page : ProcessedPage) : String :=
  "## " ++ page.title ++ "\n\n" ++ "Source: " ++ page.url ++ "\n\n" ++
    (let sections := headingSections page.content
     if sections.isEmpty then textOfForest page.content ++ "\n\n"
     else String.join (sections.map compileSection)) ++
    compileCodeExamples page.codeExamples ++
    compileApiSignatures page.apiSignatures

/-- All page sections, with the `---` separator between consecutive pages
(`index < pages.length - 1`). -/
def compilePages : List ProcessedPage → String
  | [] => ""
  | [page] => compilePage page
  | page :: rest => compilePage page ++ "---\n\n" ++ compilePages rest

/-- Table-of-contents lines, numbered from `index + 1`. -/
def compileToc (i : Nat) : List ProcessedPage → String
  | [] => ""
  | page :: rest =>
    toString (i + 1) ++ ". [" ++ page.title ++ "](#" ++ slugify page.title ++ ")\n" ++
      compileToc (i + 1) rest

/-- The fixed trailing guidance block. -/
def summarizationInstructions : String :=
  "## 📌 Instructions for Summarization\n\n" ++
    "1. Provide a concise overview of what this library/package does\n" ++
    "2. Highlight key features and functionality\n" ++
    "3. Include basic usage examples when available\n" ++
    "4. Format the response for readability\n" ++
    "5. If any part of the documentation is unclear, mention this\n" ++
    "6. Include installation instructions if available\n"

/-- Everything `compileDocumentation` appends before the generation
timestamp. -/
def compileBeforeTimestamp (pages : List ProcessedPage) (libraryName : String) : String :=
  "# " ++ libraryName ++ " Documentation\n\n" ++
    "## 📋 Documentation Overview\n\n" ++
    "Library Name: " ++ libraryName ++ "\n" ++
    "Pages Analyzed: " ++ toString pages.length ++ "\n" ++
    "Generated: "

/-- Everything `compileDocumentation` appends after the generation
timestamp. -/
def compileAfterTimestamp (pages : List ProcessedPage) : String :=
  "\n\n" ++
    "## 📑 Table of Contents\n\n" ++ compileToc 0 pages ++ "\n" ++
    compilePages pages ++
    summarizationInstructions

/-- `compileDocumentation(pages, libraryName)`; `now` is the
`new Date().toISOString()` value interpolated into the `Generated:` line,
the only place the clock is read. -/
def compileDocumentation (pages : List ProcessedPage) (libraryName : String)
    (now : String) : String :=
  compileBeforeTimestamp pages libraryName ++ (now ++ compileAfterTimestamp pages)

/-- The success-path prompt-instruction suffix of
`fetchLibraryDocumentation`. -/
def promptInstructions (libraryName : String) : String :=
  "\n---\n\n🔍 For better summarization, use the \"summarize-library-docs\" prompt with:\n- libraryName: \"" ++
    libraryName ++
    "\"\n- documentation: <the content above>\n\nExample: @summarize-library-docs with libraryName=\"" ++
    libraryName ++ "\"\n      "

/-- Outcome of `fetchLibraryDocumentation`, as observed by its caller. -/
inductive FetchResult where
  | ok (doc : String)
  /-- The catch-path return value: the crawl produced zero pages, the
  thrown `Failed to fetch documentation from <seed>` error was caught, and
  an error report carrying the attempted seed URL was returned. -/
  | failure (err : String)
  /-- An exception escaping the function: `extractLibraryName` threw inside
  the catch block (only possible for `github.com`-without-slash URLs). -/
  | thrown
deriving Repr, DecidableEq

/-- The crawl-exhausted report text: `Error fetching URL content: ` plus the
thrown message `Failed to fetch documentation from <seed>`, plus the
error-specific prompt instructions. -/
def crawlExhaustedReport (seedUrl libraryName : String) : String :=
  "Error fetching URL content: Failed to fetch documentation from " ++
    (seedUrl ++
      ("\n---\n\n🔍 For information about this library despite the fetch error, use the \"summarize-library-docs\" prompt with:\n- libraryName: \"" ++
        (libraryName ++
          ("\"\n- errorStatus: \"Failed to fetch documentation from " ++
            (seedUrl ++
              ("\"\n\nExample: @summarize-library-docs with libraryName=\"" ++
                (libraryName ++ "\" and errorStatus=\"fetch failed\"\n      ")))))))

/-- `fetchLibraryDocumentation(url, maxPages)`: rewrite non-`http` inputs to
the npm package URL, extract the library name, crawl, and either compile the
pages or (when the crawl produced zero pages) throw, catch, and return the
error report carrying the seed URL. -/
def fetchLibraryDocumentation (oracle : String → Option ProcessedPage)
    (now : String) (url : String) (maxPages : Nat) : FetchResult :=
  let url' := seedUrlOf url
  match extractLibraryName url' with
  | none => .thrown
  | some libraryName =>
    let pages := crawlDocumentation oracle url' maxPages
    if pages.isEmpty then .failure (crawlExhaustedReport url' libraryName)
    else .ok (compileDocumentation pages libraryName now ++ promptInstructions libraryName)

/-! ## Concrete fixtures for exercising the executable embedding -/

/-- A tiny URL table: the two pages of host `h` (fixture). -/
def demoParseUrl : String → Option UrlObj :=
  fun s =>
    if s = "http://h/base" then
      some { href := "http://h/base", hostname := "h", pathname := "/base" }
    else if s = "http://h/docs" then
      some { href := "http://h/docs", hostname := "h", pathname := "/docs" }
    else none

/-- Relative-reference resolution over the same table (fixture). -/
def demoResolveUrl : String → String → Option UrlObj :=
  fun href base =>
    if href = "/docs" && base = "http://h/base" then
      some { href := "http://h/docs", hostname := "h", pathname := "/docs" }
    else none

/-- A page with one same-host documentation anchor (fixture). -/
def demoLinkPage : MForest :=
  .ofList [.element "a" [("href", "/docs")] (.ofList [.text "docs"])]

/-! # Theorems -/

/-! ## Base64 facts and cache-key properties -/

theorem b64Dec_b64Char : ∀ n < 64, b64Dec (b64Char n) = n := by decide

theorem b64Char_ne_pad : ∀ n < 64, b64Char n ≠ '=' := by decide

theorem base64_roundtrip :
    ∀ l : List Nat, (∀ x ∈ l, x < 256) → base64Decode (base64Encode l) = l := by
  intro l
  induction l using base64Encode.induct with
  | case1 => intro _; rfl
  | case2 a =>
    intro h
    have ha : a < 256 := h a (by simp)
    have h1 : b64Dec (b64Char (a / 4)) = a / 4 := b64Dec_b64Char _ (by omega)
    have h2 : b64Dec (b64Char (a % 4 * 16)) = a % 4 * 16 := b64Dec_b64Char _ (by omega)
    simp only [base64Encode, base64Decode, reduceIte, h1, h2, List.cons.injEq, and_true]
    omega
  | case3 a b =>
    intro h
    have ha : a < 256 := h a (by simp)
    have hb : b < 256 := h b (by simp)
    have h1 : b64Dec (b64Char (a / 4)) = a / 4 := b64Dec_b64Char _ (by omega)
    have h2 : b64Dec (b64Char (a % 4 * 16 + b / 16)) = a % 4 * 16 + b / 16 :=
      b64Dec_b64Char _ (by omega)
    have h3 : b64Dec (b64Char (b % 16 * 4)) = b % 16 * 4 := b64Dec_b64Char _ (by omega)
    have hne : b64Char (b % 16 * 4) ≠ '=' := b64Char_ne_pad _ (by omega)
    simp only [base64Encode, base64Decode, if_neg hne, reduceIte, h1, h2, h3,
      List.cons.injEq, and_true]
    constructor <;> omega
  | case4 a b c rest ih =>
    intro h
    have ha : a < 256 := h a (by simp)
    have hb : b < 256 := h b (by simp)
    have hc : c < 256 := h c (by simp)
    have h1 : b64Dec (b64Char (a / 4)) = a / 4 := b64Dec_b64Char _ (by omega)
    have h2 : b64Dec (b64Char (a % 4 * 16 + b / 16)) = a % 4 * 16 + b / 16 :=
      b64Dec_b64Char _ (by omega)
    have h3 : b64Dec (b64Char (b % 16 * 4 + c / 64)) = b % 16 * 4 + c / 64 :=
      b64Dec_b64Char _ (by omega)
    have h4 : b64Dec (b64Char (c % 64)) = c % 64 := b64Dec_b64Char _ (by omega)
    have hne3 : b64Char (b % 16 * 4 + c / 64) ≠ '=' := b64Char_ne_pad _ (by omega)
    have hne4 : b64Char (c % 64) ≠ '=' := b64Char_ne_pad _ (by omega)
    have ih' := ih (fun x hx => h x (by simp [hx]))
    simp only [base64Encode, base64Decode, if_neg hne3, if_neg hne4, h1, h2, h3, h4,
      List.append_eq, List.cons_append, List.nil_append, ih', List.cons.injEq]
    refine ⟨by omega, by omega, by omega, trivial⟩

/-- C3 (counterexample): the claim asserts the cache key contains no
path-separator characters, but standard base64 emits `/`: the URL `"???"`
(UTF-8 bytes `[63, 63, 63]`) is keyed `Pz8/.json`, which contains `/`. -/
theorem cacheKey_contains_path_separator :
    cacheKey [63, 63, 63] = "Pz8/.json".toList ∧ '/' ∈ cacheKey [63, 63, 63] := by
  constructor
  · rfl
  · decide

/-- C3 (amended): the cache-key transform shared by `getPage` and `setPage`
is deterministic (it is a function of the URL's bytes) and injective on byte
sequences — distinct URLs map to distinct keys — though not
filesystem-safe. -/
theorem cacheKey_injective (u1 u2 : List Nat)
    (h1 : ∀ x ∈ u1, x < 256) (h2 : ∀ x ∈ u2, x < 256)
    (heq : cacheKey u1 = cacheKey u2) : u1 = u2 := by
  have henc : base64Encode u1 = base64Encode u2 := by
    have := heq
    unfold cacheKey at this
    exact List.append_cancel_right this
  calc u1 = base64Decode (base64Encode u1) := (base64_roundtrip u1 h1).symm
    _ = base64Decode (base64Encode u2) := by rw [henc]
    _ = u2 := base64_roundtrip u2 h2

/-- Witness for C3's amended theorem at the byte sequences of two concrete
URLs. -/
theorem cacheKey_injective_witness : ([104, 105] : List Nat) = [104, 105] :=
  cacheKey_injective [104, 105] [104, 105] (by decide) (by decide) rfl

/-! ## C2: cache TTL round trip -/

/-- C2 (counterexample): the claim's within-TTL round trip fails for the
program at the URL `http://a/???` (UTF-8 bytes below): its cache key
`aHR0cDovL2EvPz8/.json` contains `/`, so `writeFileSync` targets a file in
a subdirectory that never exists, throws `ENOENT`, and is swallowed — a
read one millisecond after the write timestamp finds nothing. -/
theorem cache_put_get_ttl_counterexample :
    '/' ∈ cacheKey [104, 116, 116, 112, 58, 47, 47, 97, 47, 63, 63, 63] ∧
    ((1 : Int) -
        ({ url := "http://a/???", title := "", content := .nil, links := [],
           codeExamples := [], apiSignatures := [],
           timestamp := 0 } : ProcessedPage).timestamp < ttlMs) ∧
    CacheService.getPage
        (CacheService.setPage (fun _ => none)
          [104, 116, 116, 112, 58, 47, 47, 97, 47, 63, 63, 63]
          { url := "http://a/???", title := "", content := .nil, links := [],
            codeExamples := [], apiSignatures := [], timestamp := 0 })
        1 [104, 116, 116, 112, 58, 47, 47, 97, 47, 63, 63, 63] ≠
      some { url := "http://a/???", title := "", content := .nil, links := [],
             codeExamples := [], apiSignatures := [], timestamp := 0 } := by
  refine ⟨by decide, by decide, ?_⟩
  have hnone : CacheService.getPage
      (CacheService.setPage (fun _ => none)
        [104, 116, 116, 112, 58, 47, 47, 97, 47, 63, 63, 63]
        { url := "http://a/???", title := "", content := .nil, links := [],
          codeExamples := [], apiSignatures := [], timestamp := 0 })
      1 [104, 116, 116, 112, 58, 47, 47, 97, 47, 63, 63, 63] = none := rfl
  rw [hnone]
  simp

/-- C2 (amended): for every URL whose cache key contains no `/` — the only
case in which `writeFileSync` at the key can succeed — writing a record
with `setPage` and reading the same URL with `getPage` returns the record
unchanged strictly within 24 hours of its write timestamp, and absent
(`null`) at or beyond 24 hours. -/
theorem cache_put_get_ttl (store : CacheStore) (urlBytes : List Nat)
    (r : ProcessedPage) (now : Int) (hkey : '/' ∉ cacheKey urlBytes) :
    (now - r.timestamp < ttlMs →
      CacheService.getPage (CacheService.setPage store urlBytes r) now urlBytes = some r) ∧
    (now - r.timestamp ≥ ttlMs →
      CacheService.getPage (CacheService.setPage store urlBytes r) now urlBytes = none) := by
  unfold CacheService.getPage CacheService.setPage
  simp only [if_neg hkey, if_pos rfl]
  constructor
  · intro h
    simp [h]
  · intro h
    simp
    omega

/-- Witness for C2 at a concrete store, a slash-free key, a record, and two
read times (one inside, one outside the TTL window). -/
theorem cache_put_get_ttl_witness :
    CacheService.getPage
        (CacheService.setPage (fun _ => none) [97]
          { url := "a", title := "", content := .nil, links := [],
            codeExamples := [], apiSignatures := [], timestamp := 0 })
        5 [97] =
      some { url := "a", title := "", content := .nil, links := [],
             codeExamples := [], apiSignatures := [], timestamp := 0 } ∧
    CacheService.getPage
        (CacheService.setPage (fun _ => none) [97]
          { url := "a", title := "", content := .nil, links := [],
            codeExamples := [], apiSignatures := [], timestamp := 0 })
        86400000 [97] = none := by
  constructor
  · exact (cache_put_get_ttl (fun _ => none) [97] _ 5 (by decide)).1 (by decide)
  · exact (cache_put_get_ttl (fun _ => none) [97] _ 86400000 (by decide)).2 (by decide)

/-! ## C5 / C6: code example extraction -/

/-- C5: a document whose single code block is `<code class="language-rust">`
containing `fn main() {}` yields exactly one code example, with language
`rust` and exactly that text. -/
theorem extractCodeExamples_rust_scenario :
    extractCodeExamples
        (.ofList [.element "code" [("class", "language-rust")]
          (.ofList [.text "fn main() \x7b\x7d"])]) =
      [{ code := "fn main() \x7b\x7d", language := "rust", description := "" }] := by
  decide

theorem tryLangKeyword_ne_nil (kw : String) (l t : List Char)
    (h : tryLangKeyword kw l = some t) : t ≠ [] := by
  unfold tryLangKeyword at h
  split at h
  · next rest heq =>
    by_cases hemp : (List.takeWhile wordChar rest).isEmpty = true
    · simp [hemp] at h
    · simp [hemp] at h
      intro hc
      apply hemp
      rw [h, hc]
      rfl
  · exact absurd h (by simp)

theorem langTokenAt_ne_nil (l t : List Char) (h : langTokenAt l = some t) : t ≠ [] := by
  unfold langTokenAt at h
  split at h
  · next heq => cases h; exact tryLangKeyword_ne_nil _ _ _ heq
  · split at h
    · next heq => cases h; exact tryLangKeyword_ne_nil _ _ _ heq
    · exact tryLangKeyword_ne_nil _ _ _ h

theorem scanLangToken_ne_nil (l t : List Char) (h : scanLangToken l = some t) : t ≠ [] := by
  induction l with
  | nil => exact absurd h (by simp [scanLangToken])
  | cons c cs ih =>
    unfold scanLangToken at h
    split at h
    · next heq => cases h; exact langTokenAt_ne_nil _ _ heq
    · exact ih h

/-- C6 (counterexample): on a block with class `mycode-js` and attribute
`data-language="python"`, the claimed priority order (class convention, then
attributes, then substring heuristics) would infer `python`, but the code
infers `javascript` — the substring heuristic runs before the attributes. -/
theorem extractCodeExamples_language_order_counterexample :
    (extractCodeExamples
        (.ofList [.element "code" [("class", "mycode-js"), ("data-language", "python")]
          (.ofList [.text "import numpy"])])).map CodeExample.language = ["javascript"] ∧
    firstNonEmptyRule [specLangRuleClassConvention "mycode-js",
      specLangRuleAttrs [("class", "mycode-js"), ("data-language", "python")],
      specLangRuleSubstring "mycode-js"] = "python" ∧
    ("javascript" : String) ≠ "python" := by
  refine ⟨by decide, by decide, by decide⟩

/-- C6 (amended): the language inference tries, in order: the
`language-`/`lang-`/`syntax-` class convention; then the `js`/`ts` substring
heuristics on the class name; then the explicit language/data-language
attributes — a later rule is consulted only when every earlier rule produced
nothing. -/
theorem ite_empty_self (s : String) : (if s = "" then "" else s) = s := by
  split
  · next heq => exact heq.symm
  · rfl

theorem inferLanguage_rule_order (className : String) (attrs : List (String × String)) :
    inferLanguageRaw className attrs =
      firstNonEmptyRule [specLangRuleClassConvention className,
        specLangRuleSubstring className, specLangRuleAttrs attrs] := by
  unfold inferLanguageRaw firstNonEmptyRule specLangRuleClassConvention
    specLangRuleSubstring specLangRuleAttrs
  cases h : scanLangToken className.toList with
  | some t =>
    have ht : String.mk t ≠ "" := fun hcontra =>
      (scanLangToken_ne_nil _ _ h) (congrArg String.data hcontra)
    simp [h, ht, firstNonEmptyRule]
  | none =>
    simp only [h, firstNonEmptyRule, reduceIte, ite_empty_self]

/-! ## C9: API signature invariants -/

theorem entryForHeading_sound (children following : MForest) (e : APISignature)
    (h : e ∈ entryForHeading children following) :
    (e.signature ≠ "" ∨ e.description ≠ "") ∧
      e.name.length ≤ 100 ∧
      strIncludes (lowerStr e.name) "introduction" = false ∧
      strIncludes (lowerStr e.name) "getting started" = false := by
  simp only [entryForHeading] at h
  split at h
  · simp at h
  · next hguard =>
    split at h
    · next hcond =>
      simp only [List.mem_singleton] at h
      subst h
      simp only [Bool.or_eq_true, decide_eq_true_eq, not_or, Bool.not_eq_true] at hguard hcond
      refine ⟨?_, ?_, ?_, ?_⟩
      · rcases hcond with hs | hd
        · left
          simpa using hs
        · right
          simpa using hd
      · have h1 : (cleanText (textOfForest children)).length ≤ 100 := by
          have := hguard.1.1
          omega
        simpa using h1
      · simpa using hguard.1.2
      · simpa using hguard.2
    · simp at h

theorem apiFromSiblings_sound (f : MForest) (e : APISignature)
    (h : e ∈ apiFromSiblings f) :
    (e.signature ≠ "" ∨ e.description ≠ "") ∧
      e.name.length ≤ 100 ∧
      strIncludes (lowerStr e.name) "introduction" = false ∧
      strIncludes (lowerStr e.name) "getting started" = false := by
  induction f using apiFromSiblings.induct with
  | case1 => simp [apiFromSiblings] at h
  | case2 _ rest ih =>
    rw [apiFromSiblings] at h
    exact ih h
  | case3 tag attrs children rest ih1 ih2 =>
    rw [apiFromSiblings] at h
    rcases List.mem_append.1 h with h' | h'
    · rcases List.mem_append.1 h' with h'' | h''
      · split at h''
        · exact entryForHeading_sound _ _ _ h''
        · simp at h''
      · exact ih1 h''
    · exact ih2 h'

/-- C9: every entry emitted by `extractAPISignatures` has a nonempty
signature or a nonempty description, and its heading text is at most 100
characters and contains neither "introduction" nor "getting started". -/
theorem extractAPISignatures_invariants (body : MForest) (libraryName : String)
    (e : APISignature) (h : e ∈ extractAPISignatures body libraryName) :
    (e.signature ≠ "" ∨ e.description ≠ "") ∧
      e.name.length ≤ 100 ∧
      strIncludes (lowerStr e.name) "introduction" = false ∧
      strIncludes (lowerStr e.name) "getting started" = false :=
  apiFromSiblings_sound body e h

/-- Witness for C9 on a concrete page with one heading followed by a
paragraph. -/
theorem extractAPISignatures_invariants_witness :
    (({ name := "parse", signature := "", description := "Parses input." } :
        APISignature).signature ≠ "" ∨
      ({ name := "parse", signature := "", description := "Parses input." } :
        APISignature).description ≠ "") ∧
      ({ name := "parse", signature := "", description := "Parses input." } :
        APISignature).name.length ≤ 100 ∧
      strIncludes (lowerStr ({ name := "parse", signature := "", description := "Parses input." } :
        APISignature).name) "introduction" = false ∧
      strIncludes (lowerStr ({ name := "parse", signature := "", description := "Parses input." } :
        APISignature).name) "getting started" = false :=
  extractAPISignatures_invariants
    (.ofList [.element "h2" [] (.ofList [.text "parse"]),
      .element "p" [] (.ofList [.text "Parses input."])]) "x"
    { name := "parse", signature := "", description := "Parses input." }
    (by decide)

/-! ## C7: link extraction stays on the base host -/

theorem foldl_dedup_mem (l : List String) :
    ∀ (acc : List String) (x : String),
      x ∈ l.foldl (fun acc y => if y ∈ acc then acc else acc ++ [y]) acc →
      x ∈ acc ∨ x ∈ l := by
  induction l with
  | nil => intro acc x h; exact Or.inl h
  | cons y ys ih =>
    intro acc x h
    simp only [List.foldl_cons] at h
    rcases ih _ x h with h' | h'
    · by_cases hy : y ∈ acc
      · rw [if_pos hy] at h'
        exact Or.inl h'
      · rw [if_neg hy] at h'
        rcases List.mem_append.1 h' with h'' | h''
        · exact Or.inl h''
        · simp only [List.mem_singleton] at h''
          subst h''
          exact Or.inr (List.mem_cons_self _ _)
    · exact Or.inr (List.mem_cons_of_mem _ h')

theorem mem_dedupKeepFirst (l : List String) (x : String)
    (h : x ∈ dedupKeepFirst l) : x ∈ l := by
  rcases foldl_dedup_mem l [] x h with h' | h'
  · simp at h'
  · exact h'

theorem linkCandidate_same_host (parseUrl : String → Option UrlObj)
    (resolveUrl : String → String → Option UrlObj) (b : UrlObj)
    (baseUrl lib : String) (ht : String × String) (s : String)
    (h : linkCandidate parseUrl resolveUrl b baseUrl lib ht = some s) :
    ∃ u, parseUrl s = some u ∧ u.hostname = b.hostname := by
  simp only [linkCandidate] at h
  split at h
  · exact absurd h (by simp)
  · next abs hres =>
    split at h
    · exact absurd h (by simp)
    · next urlObj hparse =>
      split at h
      · exact absurd h (by simp)
      · next hhost =>
        split at h
        · split at h
          · cases h
            refine ⟨urlObj, hparse, ?_⟩
            simpa using hhost
          · exact absurd h (by simp)
        · exact absurd h (by simp)

/-- C7: every URL returned by `extractRelevantLinks` parses to the same
hostname as the page's base URL; no cross-host URL appears in the result. -/
theorem extractRelevantLinks_same_host (parseUrl : String → Option UrlObj)
    (resolveUrl : String → String → Option UrlObj) (body : MForest)
    (baseUrl libraryName : String) (b : UrlObj) (out : List String)
    (hbase : parseUrl baseUrl = some b)
    (hout : extractRelevantLinks parseUrl resolveUrl body baseUrl libraryName = some out)
    (s : String) (hs : s ∈ out) :
    ∃ u, parseUrl s = some u ∧ u.hostname = b.hostname := by
  unfold extractRelevantLinks at hout
  rw [hbase] at hout
  cases hout
  obtain ⟨ht, _, hc⟩ := List.mem_filterMap.1 (mem_dedupKeepFirst _ _ hs)
  exact linkCandidate_same_host _ _ _ _ _ _ _ hc

/-- Witness for C7 on the demo page: the extracted link `http://h/docs`
parses to the base host `h`. -/
theorem extractRelevantLinks_same_host_witness :
    ∃ u, demoParseUrl "http://h/docs" = some u ∧ u.hostname = "h" :=
  extractRelevantLinks_same_host demoParseUrl demoResolveUrl demoLinkPage
    "http://h/base" "mylib"
    { href := "http://h/base", hostname := "h", pathname := "/base" }
    ["http://h/docs"] (by decide) (by decide) "http://h/docs" (by simp)

/-! ## C4: crawl budget, duplicate freedom, visited/dequeued accounting -/

theorem crawlLoop_inv (oracle : String → Option ProcessedPage)
    (hurl : ∀ u p, oracle u = some p → p.url = u) (maxPages : Nat)
    (frontier visited : List String) (results : List ProcessedPage) (dequeued : List String)
    (hv : visited.Nodup)
    (hvd : visited.toFinset = dequeued.toFinset)
    (hr : (results.map ProcessedPage.url).Nodup)
    (hrv : ∀ p ∈ results, p.url ∈ visited)
    (hlen : results.length ≤ maxPages) :
    (crawlLoop oracle maxPages frontier visited results dequeued).1.length ≤ maxPages ∧
    ((crawlLoop oracle maxPages frontier visited results dequeued).1.map
      ProcessedPage.url).Nodup ∧
    (crawlLoop oracle maxPages frontier visited results dequeued).2.1.Nodup ∧
    (crawlLoop oracle maxPages frontier visited results dequeued).2.1.toFinset =
      (crawlLoop oracle maxPages frontier visited results dequeued).2.2.toFinset := by
  revert hv hvd hr hrv hlen
  induction frontier, visited, results, dequeued using crawlLoop.induct oracle maxPages with
  | case1 visited results dequeued =>
    intro hv hvd hr hrv hlen
    simp only [crawlLoop]
    exact ⟨hlen, hr, hv, hvd⟩
  | case2 currentUrl rest visited results dequeued h1 h2 ih =>
    intro hv hvd hr hrv hlen
    have hstep : crawlLoop oracle maxPages (currentUrl :: rest) visited results dequeued =
        crawlLoop oracle maxPages rest visited results (dequeued ++ [currentUrl]) := by
      rw [crawlLoop]
      simp [h1, h2]
    rw [hstep]
    refine ih hv ?_ hr hrv hlen
    have hcur : currentUrl ∈ dequeued.toFinset := by
      rw [← hvd]
      simp [h2]
    rw [hvd]
    simp only [List.toFinset_append, List.toFinset_cons, List.toFinset_nil,
      insert_emptyc_eq]
    exact (Finset.union_eq_left.mpr (by simpa using hcur)).symm
  | case3 currentUrl rest visited results dequeued h1 h2 hor ih =>
    intro hv hvd hr hrv hlen
    have hstep : crawlLoop oracle maxPages (currentUrl :: rest) visited results dequeued =
        crawlLoop oracle maxPages rest (currentUrl :: visited) results
          (dequeued ++ [currentUrl]) := by
      rw [crawlLoop]
      simp [h1, h2, hor]
    rw [hstep]
    refine ih (List.nodup_cons.mpr ⟨h2, hv⟩) ?_ hr
      (fun p hp => List.mem_cons_of_mem _ (hrv p hp)) hlen
    simp only [List.toFinset_cons, List.toFinset_append, List.toFinset_nil,
      insert_emptyc_eq, hvd]
    rw [Finset.insert_eq, Finset.union_comm]
  | case4 currentUrl rest visited results dequeued h1 h2 page hor ih =>
    intro hv hvd hr hrv hlen
    have hstep : crawlLoop oracle maxPages (currentUrl :: rest) visited results dequeued =
        crawlLoop oracle maxPages
          (List.foldl (fun q link =>
            if link ∈ currentUrl :: visited ∨ link ∈ q then q else q ++ [link]) rest page.links)
          (currentUrl :: visited) (results ++ [page]) (dequeued ++ [currentUrl]) := by
      rw [crawlLoop]
      simp [h1, h2, hor]
    rw [hstep]
    have hpu : page.url = currentUrl := hurl _ _ hor
    have hcurnot : currentUrl ∉ results.map ProcessedPage.url := by
      intro hmem
      obtain ⟨p, hp, he⟩ := List.mem_map.1 hmem
      exact h2 (he ▸ hrv p hp)
    refine ih (List.nodup_cons.mpr ⟨h2, hv⟩) ?_ ?_ ?_ ?_
    · simp only [List.toFinset_cons, List.toFinset_append, List.toFinset_nil,
        insert_emptyc_eq, hvd]
      rw [Finset.insert_eq, Finset.union_comm]
    · rw [List.map_append]
      rw [List.nodup_append]
      refine ⟨hr, by simp, ?_⟩
      intro a ha hb
      simp only [List.map_cons, List.map_nil, List.mem_singleton] at hb
      rw [hb, hpu] at ha
      exact hcurnot ha
    · intro p hp
      rcases List.mem_append.1 hp with h' | h'
      · exact List.mem_cons_of_mem _ (hrv p h')
      · simp only [List.mem_singleton] at h'
        subst h'
        rw [hpu]
        exact List.mem_cons_self _ _
    · simp only [List.length_append, List.length_cons, List.length_nil]
      omega
  | case5 currentUrl rest visited results dequeued h =>
    intro hv hvd hr hrv hlen
    have hstep : crawlLoop oracle maxPages (currentUrl :: rest) visited results dequeued =
        (results, visited, dequeued) := by
      rw [crawlLoop]
      simp [h]
    rw [hstep]
    exact ⟨hlen, hr, hv, hvd⟩

/-- C4: a crawl returns at most `maxPages` records, no two of which share a
URL, and the final visited set's size equals the number of distinct URLs
dequeued from the frontier. -/
theorem crawlDocumentation_invariants (oracle : String → Option ProcessedPage)
    (hurl : ∀ u p, oracle u = some p → p.url = u)
    (startUrl : String) (maxPages : Nat) :
    (crawlDocumentation oracle startUrl maxPages).length ≤ maxPages ∧
    ((crawlDocumentation oracle startUrl maxPages).map ProcessedPage.url).Nodup ∧
    (crawlLoop oracle maxPages [startUrl] [] [] []).2.1.length =
      (crawlLoop oracle maxPages [startUrl] [] [] []).2.2.toFinset.card := by
  obtain ⟨h1, h2, h3, h4⟩ := crawlLoop_inv oracle hurl maxPages [startUrl] [] [] []
    (by simp) (by simp) (by simp) (by simp) (by simp)
  refine ⟨h1, h2, ?_⟩
  rw [← h4]
  exact (List.toFinset_card_of_nodup h3).symm

/-- Witness for C4 with the everywhere-failing oracle. -/
theorem crawlDocumentation_invariants_witness :
    (crawlDocumentation (fun _ => none) "http://h/base" 5).length ≤ 5 ∧
    ((crawlDocumentation (fun _ => none) "http://h/base" 5).map ProcessedPage.url).Nodup ∧
    (crawlLoop (fun _ => none) 5 ["http://h/base"] [] [] []).2.1.length =
      (crawlLoop (fun _ => none) 5 ["http://h/base"] [] [] []).2.2.toFinset.card :=
  crawlDocumentation_invariants (fun _ => none) (fun _ _ h => nomatch h) "http://h/base" 5

/-! ## C1: zero-page crawls surface the crawl-exhausted report -/

theorem isPrefixOf_eq (l1 l2 : List Char) : l1.isPrefixOf l2 = true ↔ l1 <+: l2 :=
  List.isPrefixOf_iff_prefix

theorem containsSublist_iff (needle hay : List Char) :
    containsSublist needle hay = true ↔ needle <:+: hay := by
  induction hay with
  | nil =>
    simp [containsSublist, List.isEmpty_iff]
  | cons c rest ih =>
    simp [containsSublist, isPrefixOf_eq, ih, List.infix_cons_iff]

theorem strIncludes_append_middle (a s b : String) :
    strIncludes (a ++ (s ++ b)) s = true := by
  unfold strIncludes
  rw [containsSublist_iff]
  show s.data <:+: (a ++ (s ++ b)).data
  rw [String.data_append, String.data_append, ← List.append_assoc]
  exact List.infix_append _ _ _

theorem report_contains_seed (seedUrl libraryName : String) :
    strIncludes (crawlExhaustedReport seedUrl libraryName) seedUrl = true := by
  unfold crawlExhaustedReport
  exact strIncludes_append_middle _ _ _

/-- C1: whenever the crawl from the (possibly rewritten) seed URL produces
zero pages — a failing seed fetch included — `fetchLibraryDocumentation`
returns the crawl-exhausted failure report, which carries the attempted
seed URL; and this report is the only failure the function ever returns:
any failure outcome is that report, produced by a zero-page crawl. -/
theorem fetchLibraryDocumentation_crawl_exhausted
    (oracle : String → Option ProcessedPage) (now url : String) (maxPages : Nat)
    (libraryName : String)
    (hname : extractLibraryName (seedUrlOf url) = some libraryName) :
    (crawlDocumentation oracle (seedUrlOf url) maxPages = [] →
      fetchLibraryDocumentation oracle now url maxPages =
        .failure (crawlExhaustedReport (seedUrlOf url) libraryName) ∧
      strIncludes (crawlExhaustedReport (seedUrlOf url) libraryName) (seedUrlOf url) = true) ∧
    (∀ e, fetchLibraryDocumentation oracle now url maxPages = .failure e →
      e = crawlExhaustedReport (seedUrlOf url) libraryName ∧
      crawlDocumentation oracle (seedUrlOf url) maxPages = []) := by
  have hbody : fetchLibraryDocumentation oracle now url maxPages =
      if (crawlDocumentation oracle (seedUrlOf url) maxPages).isEmpty then
        .failure (crawlExhaustedReport (seedUrlOf url) libraryName)
      else
        .ok (compileDocumentation (crawlDocumentation oracle (seedUrlOf url) maxPages)
              libraryName now ++ promptInstructions libraryName) := by
    simp only [fetchLibraryDocumentation, hname]
  constructor
  · intro hempty
    rw [hbody, hempty]
    exact ⟨by simp, report_contains_seed _ _⟩
  · intro e he
    rw [hbody] at he
    by_cases hempty : (crawlDocumentation oracle (seedUrlOf url) maxPages).isEmpty = true
    · rw [if_pos hempty] at he
      cases he
      exact ⟨rfl, List.isEmpty_iff.mp hempty⟩
    · rw [if_neg hempty] at he
      cases he

/-- Witness for C1: package name `x`, oracle failing on every URL. -/
theorem fetchLibraryDocumentation_crawl_exhausted_witness :
    fetchLibraryDocumentation (fun _ => none) "t" "x" 5 =
      .failure (crawlExhaustedReport (seedUrlOf "x") "x") ∧
    strIncludes (crawlExhaustedReport (seedUrlOf "x") "x") (seedUrlOf "x") = true :=
  (fetchLibraryDocumentation_crawl_exhausted (fun _ => none) "t" "x" 5 "x" (by decide)).1
    (by simp [crawlDocumentation, crawlLoop])

/-! ## C10: seed rewriting for non-URL inputs -/

theorem jsStartsWith_npm_prepend (s : String) :
    jsStartsWith ("https://www.npmjs.com/package/" ++ s) "http" = true := by
  unfold jsStartsWith
  rw [isPrefixOf_eq]
  have h1 : "http".toList <+: "https://www.npmjs.com/package/".toList :=
    (isPrefixOf_eq _ _).mp (by decide)
  have h2 : "https://www.npmjs.com/package/".toList <+:
      ("https://www.npmjs.com/package/" ++ s).toList := by
    show _ <+: ("https://www.npmjs.com/package/" ++ s).data
    rw [String.data_append]
    exact List.prefix_append _ _
  exact h1.trans h2

theorem seedUrlOf_idem (url : String) : seedUrlOf (seedUrlOf url) = seedUrlOf url := by
  by_cases h : jsStartsWith url "http" = true
  · simp [seedUrlOf, h]
  · simp only [Bool.not_eq_true] at h
    simp [seedUrlOf, h, jsStartsWith_npm_prepend]

/-- C10: an input that does not start with `"http"` is rewritten to
`https://www.npmjs.com/package/<input>` before the crawl, while an input
starting with `"http"` is used verbatim; `fetchLibraryDocumentation` behaves
on any input exactly as it does on the rewritten seed URL. -/
theorem fetchLibraryDocumentation_seed_rewrite (url : String) :
    (jsStartsWith url "http" = true → seedUrlOf url = url) ∧
    (jsStartsWith url "http" = false →
      seedUrlOf url = "https://www.npmjs.com/package/" ++ url) ∧
    (∀ (oracle : String → Option ProcessedPage) (now : String) (maxPages : Nat),
      fetchLibraryDocumentation oracle now url maxPages =
        fetchLibraryDocumentation oracle now (seedUrlOf url) maxPages) := by
  refine ⟨fun h => by simp [seedUrlOf, h], fun h => by simp [seedUrlOf, h], ?_⟩
  intro oracle now maxPages
  unfold fetchLibraryDocumentation
  rw [seedUrlOf_idem]

/-- Witness for C10: a package name is rewritten, a URL is kept verbatim. -/
theorem fetchLibraryDocumentation_seed_rewrite_witness :
    seedUrlOf "lodash" = "https://www.npmjs.com/package/" ++ "lodash" ∧
    seedUrlOf "http://example.com" = "http://example.com" :=
  ⟨(fetchLibraryDocumentation_seed_rewrite "lodash").2.1 (by decide),
   (fetchLibraryDocumentation_seed_rewrite "http://example.com").1 (by decide)⟩

/-! ## C8: compilation is deterministic modulo the timestamp -/

/-- C8: compiling the same ordered page list twice yields identical text
except for the generation timestamp: both outputs share one prefix and one
suffix, each a function of the pages and subject name alone, around the
interpolated timestamp. -/
theorem compileDocumentation_deterministic (pages : List ProcessedPage)
    (libraryName : String) (t1 t2 : String) :
    ∃ pre post : String,
      compileDocumentation pages libraryName t1 = pre ++ (t1 ++ post) ∧
      compileDocumentation pages libraryName t2 = pre ++ (t2 ++ post) :=
  ⟨compileBeforeTimestamp pages libraryName, compileAfterTimestamp pages, rfl, rfl⟩
